import Mathlib

set_option maxHeartbeats 1000000

/-!
Verification of the gpm command-pipeline and watch-runner core, embedded from
src/src/core/managers/package.ts and src/src/core/managers/devtools.ts.
-/

namespace GPM

/-- Output of a spawned child process, as consumed by the pipeline loop in
package.ts lines 274-276: `out` models a chunk delivered on the child data
event, `err` models a chunk delivered on the child error event/stream. -/
inductive ChildEv where
  | out (chunk : String)
  | err (chunk : String)
deriving DecidableEq

/-- Behaviour of the external spawn primitive for one command string: either the
spawn succeeds and the child emits `evs` and then exits with `exitCode`, or the
spawn step itself throws the error value `e`.  The exit handler installed at
package.ts line 277 takes no argument, so `exitCode` is never consumed. -/
inductive ChildBehavior where
  | runs (evs : List ChildEv) (exitCode : Int)
  | spawnFail (e : String)
deriving DecidableEq

/-- Events emitted by the pipeline emitter (package.ts lines 267-292). -/
inductive PEvent where
  | data (chunk : String)
  | error (e : String)
  | exit
deriving DecidableEq

/-- Package.ts lines 275-276: both the child data events and the child error
events are forwarded as pipeline `data` events. -/
def forwardChildEv : ChildEv → PEvent
  | .out s => .data s
  | .err s => .data s

/-- The chunk carried by a child event. -/
def ChildEv.chunk : ChildEv → String
  | .out s => s
  | .err s => s

/-- The loop of `pipeline(commands)` (package.ts lines 270-289), as a function of
the spawn oracle `behav`: returns the events emitted by the pipeline emitter
paired with the list of commands whose spawn was invoked, in invocation order.
Each command is awaited until its exit before the next starts; a thrown spawn
error aborts the loop with a terminal `error` event, otherwise a terminal
`exit` event is emitted after the last command. -/
def runPipeline (behav : String → ChildBehavior) : List String → List PEvent × List String
  | [] => ([PEvent.exit], [])
  | c :: cs =>
    match behav c with
    | .spawnFail e => ([PEvent.error e], [c])
    | .runs evs _ =>
      (evs.map forwardChildEv ++ (runPipeline behav cs).1,
        c :: (runPipeline behav cs).2)

/-- True when the spawn step does not throw for this behaviour. -/
def ChildBehavior.succeeds : ChildBehavior → Bool
  | .runs _ _ => true
  | .spawnFail _ => false

/-- A child behaviour with its exit code erased.  The pipeline can only depend
on this view, because the exit handler at package.ts line 277 ignores the exit
code. -/
def ChildBehavior.obs : ChildBehavior → List ChildEv ⊕ String
  | .runs evs _ => Sum.inl evs
  | .spawnFail e => Sum.inr e

/-- PackageManager.release, configured-command branch, package.ts line 27: the
writes to the error stream are exactly the payloads of pipeline error events. -/
def releaseStderr (evs : List PEvent) : List String :=
  evs.filterMap fun e =>
    match e with
    | .error s => some s
    | _ => none

/-- Package.ts lines 29-31: the promise returned by release resolves iff the
pipeline emits an `exit` event, because resolve is only called by the exit
handler; no handler ever rejects. -/
def releaseResolved (evs : List PEvent) : Bool :=
  evs.any fun e =>
    match e with
    | .exit => true
    | _ => false

/-- Number of pipeline error events in a trace. -/
def countErrorEvents (evs : List PEvent) : Nat :=
  evs.countP fun e =>
    match e with
    | .error _ => true
    | _ => false

theorem forwardChildEv_eq_data (ev : ChildEv) :
    forwardChildEv ev = PEvent.data ev.chunk := by
  cases ev <;> rfl

theorem map_forwardChildEv (evs : List ChildEv) :
    evs.map forwardChildEv = (evs.map ChildEv.chunk).map PEvent.data := by
  induction evs with
  | nil => rfl
  | cons ev evs ih => simp [forwardChildEv_eq_data, ih]

theorem countErrorEvents_data_exit (ds : List String) :
    countErrorEvents (ds.map PEvent.data ++ [PEvent.exit]) = 0 := by
  simp [countErrorEvents, List.countP_append, List.countP_map, Function.comp]

theorem countErrorEvents_data_error (ds : List String) (e : String) :
    countErrorEvents (ds.map PEvent.data ++ [PEvent.error e]) = 1 := by
  simp [countErrorEvents, List.countP_append, List.countP_map, Function.comp,
    List.countP_cons]

/-- Helper: a pipeline whose spawns all succeed spawns every command in order
and emits data events followed by a single terminal exit event. -/
theorem runPipeline_success (behav : String → ChildBehavior) (cs : List String)
    (h : ∀ c ∈ cs, (behav c).succeeds = true) :
    (runPipeline behav cs).2 = cs ∧
      ∃ ds : List String, (runPipeline behav cs).1 = ds.map PEvent.data ++ [PEvent.exit] := by
  induction cs with
  | nil => exact ⟨rfl, [], rfl⟩
  | cons c cs ih =>
    have hc : (behav c).succeeds = true := h c (List.mem_cons_self c cs)
    have htail : ∀ c' ∈ cs, (behav c').succeeds = true := fun c' hc' =>
      h c' (List.mem_cons_of_mem c hc')
    obtain ⟨hsp, ds, hds⟩ := ih htail
    cases hb : behav c with
    | spawnFail e => rw [hb] at hc; simp [ChildBehavior.succeeds] at hc
    | runs evs code =>
      refine ⟨?_, evs.map ChildEv.chunk ++ ds, ?_⟩
      · simp [runPipeline, hb, hsp]
      · simp [runPipeline, hb, hds, map_forwardChildEv]

/-- Helper: a thrown spawn error stops the pipeline after the failing command
and yields a trace of data events followed by a single terminal error event. -/
theorem runPipeline_spawn_fail (behav : String → ChildBehavior)
    (pre : List String) (c : String) (post : List String) (e : String)
    (hpre : ∀ c' ∈ pre, (behav c').succeeds = true)
    (hc : behav c = ChildBehavior.spawnFail e) :
    (runPipeline behav (pre ++ c :: post)).2 = pre ++ [c] ∧
      ∃ ds : List String, (runPipeline behav (pre ++ c :: post)).1 =
        ds.map PEvent.data ++ [PEvent.error e] := by
  induction pre with
  | nil => exact ⟨by simp [runPipeline, hc], [], by simp [runPipeline, hc]⟩
  | cons p pre ih =>
    have hp : (behav p).succeeds = true := hpre p (List.mem_cons_self p pre)
    have htail : ∀ c' ∈ pre, (behav c').succeeds = true := fun c' hc' =>
      hpre c' (List.mem_cons_of_mem p hc')
    obtain ⟨hsp, ds, hds⟩ := ih htail
    cases hb : behav p with
    | spawnFail e' => rw [hb] at hp; simp [ChildBehavior.succeeds] at hp
    | runs evs code =>
      refine ⟨?_, evs.map ChildEv.chunk ++ ds, ?_⟩
      · simp [runPipeline, hb, hsp]
      · simp [runPipeline, hb, hds, map_forwardChildEv]

/-- Helper: the pipeline result depends only on the exit-code-erased view of
each behaviour, because the exit handler ignores the exit code. -/
theorem runPipeline_obs_congr (b₁ b₂ : String → ChildBehavior)
    (h : ∀ c, (b₁ c).obs = (b₂ c).obs) (cs : List String) :
    runPipeline b₁ cs = runPipeline b₂ cs := by
  induction cs with
  | nil => rfl
  | cons c cs ih =>
    have hc := h c
    cases h₁ : b₁ c <;> cases h₂ : b₂ c <;>
      rw [h₁, h₂] at hc <;> simp [ChildBehavior.obs] at hc <;>
      simp [runPipeline, h₁, h₂, hc, ih]

/-- Claim C5 (confirmed): for a command sequence in which every command
succeeds, the pipeline spawns each command exactly once and in order, emits a
block of data events closed by exactly one terminal exit event, emits zero
error events, and for the empty sequence the outcome is immediate success. -/
theorem pipeline_all_success (behav : String → ChildBehavior) (cs : List String)
    (h : ∀ c ∈ cs, (behav c).succeeds = true) :
    (runPipeline behav cs).2 = cs ∧
      (∃ ds : List String, (runPipeline behav cs).1 = ds.map PEvent.data ++ [PEvent.exit]) ∧
      countErrorEvents (runPipeline behav cs).1 = 0 ∧
      runPipeline behav [] = ([PEvent.exit], []) := by
  obtain ⟨hsp, ds, hds⟩ := runPipeline_success behav cs h
  exact ⟨hsp, ⟨ds, hds⟩, by rw [hds]; exact countErrorEvents_data_exit ds, rfl⟩

/-- Oracle for the claim C5 witness: every command runs silently. -/
def allOkBehav : String → ChildBehavior := fun _ => ChildBehavior.runs [] 0

theorem pipeline_all_success_witness :
    (runPipeline allOkBehav ["a", "b"]).2 = ["a", "b"] ∧
      (∃ ds : List String, (runPipeline allOkBehav ["a", "b"]).1 =
        ds.map PEvent.data ++ [PEvent.exit]) ∧
      countErrorEvents (runPipeline allOkBehav ["a", "b"]).1 = 0 ∧
      runPipeline allOkBehav [] = ([PEvent.exit], []) :=
  pipeline_all_success allOkBehav ["a", "b"] (by decide)

/-- Claim C4 (confirmed): when every spawn before `c` succeeds and the spawn of
`c` throws the value `e`, the pipeline spawns exactly the commands up to and
including `c`, never the later ones, and its trace ends in exactly one terminal
error event carrying `e`. -/
theorem pipeline_spawn_error_short_circuit (behav : String → ChildBehavior)
    (pre : List String) (c : String) (post : List String) (e : String)
    (hpre : ∀ c' ∈ pre, (behav c').succeeds = true)
    (hc : behav c = ChildBehavior.spawnFail e) :
    (runPipeline behav (pre ++ c :: post)).2 = pre ++ [c] ∧
      (∃ ds : List String, (runPipeline behav (pre ++ c :: post)).1 =
        ds.map PEvent.data ++ [PEvent.error e]) ∧
      countErrorEvents (runPipeline behav (pre ++ c :: post)).1 = 1 := by
  obtain ⟨hsp, ds, hds⟩ := runPipeline_spawn_fail behav pre c post e hpre hc
  exact ⟨hsp, ⟨ds, hds⟩, by rw [hds]; exact countErrorEvents_data_error ds e⟩

/-- Oracle for the claim C4 witness: command b fails to spawn, a and c run. -/
def failBBehav : String → ChildBehavior := fun c =>
  if c = "b" then ChildBehavior.spawnFail "boom" else ChildBehavior.runs [] 0

theorem pipeline_spawn_error_short_circuit_witness :
    (runPipeline failBBehav (["a"] ++ "b" :: ["c"])).2 = ["a"] ++ ["b"] ∧
      (∃ ds : List String, (runPipeline failBBehav (["a"] ++ "b" :: ["c"])).1 =
        ds.map PEvent.data ++ [PEvent.error "boom"]) ∧
      countErrorEvents (runPipeline failBBehav (["a"] ++ "b" :: ["c"])).1 = 1 :=
  pipeline_spawn_error_short_circuit failBBehav ["a"] "b" ["c"] "boom"
    (by decide) (by decide)

/-- Claim C6 (confirmed): a command that exits non-zero but whose spawn does not
throw is treated as successful progression — with such a command in the middle
of an otherwise spawn-succeeding sequence, every command (in particular the
next one) is still spawned, the terminal event is exit and no error event is
emitted; moreover the pipeline result never depends on exit codes at all. -/
theorem pipeline_exit_code_ignored (behav : String → ChildBehavior)
    (pre : List String) (c : String) (post : List String)
    (evs : List ChildEv) (code : Int)
    (_hc : behav c = ChildBehavior.runs evs code) (_hcode : code ≠ 0)
    (hall : ∀ c' ∈ pre ++ c :: post, (behav c').succeeds = true) :
    ((runPipeline behav (pre ++ c :: post)).2 = pre ++ c :: post ∧
      (∃ ds : List String, (runPipeline behav (pre ++ c :: post)).1 =
        ds.map PEvent.data ++ [PEvent.exit]) ∧
      countErrorEvents (runPipeline behav (pre ++ c :: post)).1 = 0) ∧
    ∀ (b₁ b₂ : String → ChildBehavior) (cs : List String),
      (∀ c', (b₁ c').obs = (b₂ c').obs) → runPipeline b₁ cs = runPipeline b₂ cs := by
  obtain ⟨hsp, ds, hds⟩ := runPipeline_success behav (pre ++ c :: post) hall
  exact ⟨⟨hsp, ⟨ds, hds⟩, by rw [hds]; exact countErrorEvents_data_exit ds⟩,
    fun b₁ b₂ cs h => runPipeline_obs_congr b₁ b₂ h cs⟩

/-- Oracle for the claim C6 witness: the command false exits with code 1. -/
def falseCmdBehav : String → ChildBehavior := fun c =>
  if c = "false" then ChildBehavior.runs [] 1 else ChildBehavior.runs [] 0

theorem pipeline_exit_code_ignored_witness :
    (((runPipeline falseCmdBehav ([] ++ "false" :: ["echo ok"])).2 =
        [] ++ "false" :: ["echo ok"] ∧
      (∃ ds : List String, (runPipeline falseCmdBehav ([] ++ "false" :: ["echo ok"])).1 =
        ds.map PEvent.data ++ [PEvent.exit]) ∧
      countErrorEvents (runPipeline falseCmdBehav ([] ++ "false" :: ["echo ok"])).1 = 0) ∧
    ∀ (b₁ b₂ : String → ChildBehavior) (cs : List String),
      (∀ c', (b₁ c').obs = (b₂ c').obs) → runPipeline b₁ cs = runPipeline b₂ cs) :=
  pipeline_exit_code_ignored falseCmdBehav [] "false" ["echo ok"] [] 1
    (by decide) (by decide) (by decide)

/-- Oracle for the claim C2 counterexample: the error stream of command c1
fires with chunk E1; command c2 runs silently. -/
def errStreamBehav : String → ChildBehavior := fun c =>
  if c = "c1" then ChildBehavior.runs [ChildEv.err "E1"] 0
  else ChildBehavior.runs [] 0

/-- Claim C2 counterexample: the error stream of command c1 fires, yet the
pipeline still spawns c2, emits zero error events, and forwards the chunk as a
data event before terminating with exit — contradicting the claim that a
command error-stream event is terminal for the pipeline and is forwarded as the
pipeline error event. -/
theorem pipeline_errstream_not_terminal_cex :
    (runPipeline errStreamBehav ["c1", "c2"]).2 = ["c1", "c2"] ∧
      countErrorEvents (runPipeline errStreamBehav ["c1", "c2"]).1 = 0 ∧
      (runPipeline errStreamBehav ["c1", "c2"]).1 =
        [PEvent.data "E1", PEvent.exit] := by
  decide

/-- Claim C2 amended (proved): only a failure of the spawn primitive itself
(a thrown spawn error) is terminal for the whole pipeline and is forwarded as
the pipeline error event; a command error-stream event is instead forwarded as
a pipeline data event and is not terminal — when every spawn succeeds, every
command is spawned and zero error events are emitted, each error-stream chunk
being forwarded exactly like a data chunk. -/
theorem pipeline_spawnfail_terminal_errstream_data (behav : String → ChildBehavior) :
    (∀ (pre : List String) (c : String) (post : List String) (e : String),
      (∀ c' ∈ pre, (behav c').succeeds = true) →
      behav c = ChildBehavior.spawnFail e →
      (runPipeline behav (pre ++ c :: post)).2 = pre ++ [c] ∧
        ∃ ds : List String, (runPipeline behav (pre ++ c :: post)).1 =
          ds.map PEvent.data ++ [PEvent.error e]) ∧
    (∀ cs : List String, (∀ c ∈ cs, (behav c).succeeds = true) →
      (runPipeline behav cs).2 = cs ∧
        countErrorEvents (runPipeline behav cs).1 = 0) ∧
    ∀ s, forwardChildEv (ChildEv.err s) = forwardChildEv (ChildEv.out s) := by
  refine ⟨fun pre c post e hpre hc => runPipeline_spawn_fail behav pre c post e hpre hc,
    fun cs h => ?_, fun s => rfl⟩
  obtain ⟨hsp, ds, hds⟩ := runPipeline_success behav cs h
  exact ⟨hsp, by rw [hds]; exact countErrorEvents_data_exit ds⟩

/-- Oracle for the claim C2 witness: the error stream of c1 fires, the spawn of
cf throws, and every other command runs silently. -/
def mixedBehav : String → ChildBehavior := fun c =>
  if c = "cf" then ChildBehavior.spawnFail "boom"
  else if c = "c1" then ChildBehavior.runs [ChildEv.err "E1"] 0
  else ChildBehavior.runs [] 0

theorem pipeline_spawnfail_terminal_errstream_data_witness :
    ((runPipeline mixedBehav (["c1"] ++ "cf" :: ["c3"])).2 = ["c1"] ++ ["cf"] ∧
      ∃ ds : List String, (runPipeline mixedBehav (["c1"] ++ "cf" :: ["c3"])).1 =
        ds.map PEvent.data ++ [PEvent.error "boom"]) ∧
    ((runPipeline mixedBehav ["c1", "c2"]).2 = ["c1", "c2"] ∧
      countErrorEvents (runPipeline mixedBehav ["c1", "c2"]).1 = 0) ∧
    forwardChildEv (ChildEv.err "E1") = forwardChildEv (ChildEv.out "E1") := by
  have h := pipeline_spawnfail_terminal_errstream_data mixedBehav
  exact ⟨h.1 ["c1"] "cf" ["c3"] "boom" (by decide) (by decide),
    h.2.1 ["c1", "c2"] (by decide), h.2.2 "E1"⟩

/-- Oracle for the claim C1 counterexample: every spawn throws boom. -/
def alwaysFailBehav : String → ChildBehavior := fun _ => ChildBehavior.spawnFail "boom"

/-- Claim C1 counterexample: with a configured release pipeline whose only
command fails to spawn, the error value is written to the error stream but the
promise returned by release does NOT resolve — resolve is only invoked by the
exit handler, which never fires — contradicting the claim that the promise
resolves without throwing. -/
theorem release_error_promise_cex :
    releaseStderr (runPipeline alwaysFailBehav ["npm publish"]).1 = ["boom"] ∧
      releaseResolved (runPipeline alwaysFailBehav ["npm publish"]).1 = false := by
  decide

/-- Claim C1 amended (proved): when the configured release pipeline ends in a
terminal error, release writes the error value to the error stream, and the
promise returned by release never settles — resolve is never invoked and
nothing rejects — so awaiting it completes neither with success nor with a
thrown error. -/
theorem release_error_stderr_and_never_resolves (behav : String → ChildBehavior)
    (cs : List String) (ds : List String) (e : String)
    (h : (runPipeline behav cs).1 = ds.map PEvent.data ++ [PEvent.error e]) :
    releaseStderr (runPipeline behav cs).1 = [e] ∧
      releaseResolved (runPipeline behav cs).1 = false := by
  rw [h]
  constructor
  · simp [releaseStderr, List.filterMap_append, List.filterMap_map, Function.comp]
  · simp [releaseResolved, List.any_append, List.any_map, Function.comp]

theorem release_error_stderr_and_never_resolves_witness :
    releaseStderr (runPipeline alwaysFailBehav ["npm publish"]).1 = ["boom"] ∧
      releaseResolved (runPipeline alwaysFailBehav ["npm publish"]).1 = false :=
  release_error_stderr_and_never_resolves alwaysFailBehav ["npm publish"] [] "boom"
    (by decide)

/-! DevTools.watch (devtools.ts lines 161-244): the synchronous prefix that
resolves the command, reads the options, and either throws or registers the
filesystem watcher and starts the first run. -/

/-- The command option of DevTools.watch: a string or a list of strings
(devtools.ts line 24). -/
inductive CmdVal where
  | one (s : String)
  | many (cs : List String)
deriving DecidableEq

/-- JS truthiness of a resolved command value: the empty string is falsy, an
array is always truthy (devtools.ts line 176 checks the bang of command). -/
def CmdVal.truthy : CmdVal → Bool
  | .one s => s != ""
  | .many _ => true

/-- The ignore option: a single pattern or a list of patterns (devtools.ts line
46; a RegExp or string pattern is modelled as a string). -/
inductive IgnoreVal where
  | one (p : String)
  | many (ps : List String)
deriving DecidableEq

/-- The options argument of DevTools.watch (devtools.ts lines 23-26 and 44-47). -/
structure WatchOpts where
  command : Option CmdVal
  context : Option String
  path : Option String
  ignore : Option IgnoreVal
deriving DecidableEq

/-- Outcome of the synchronous prefix of DevTools.watch: `typeError` models the
TypeError thrown by reading the ignore field of an undefined options argument
(devtools.ts line 167, which does not use optional chaining); `configError`
models the thrown configuration error Watch no command found (line 177);
`started` records that the filesystem watcher was registered and the first run
launched, with the resolved absolute path, ignore list, command and context
(lines 233-243). -/
inductive WatchOutcome where
  | typeError
  | configError
  | started (watchPath : String) (ignore : List String) (command : CmdVal)
      (context : String)
deriving DecidableEq

/-- DevTools.watch, devtools.ts lines 161-244, up to watcher registration.
`cwd` models process.cwd() and `cfgWatch` models this.config.get applied to
the watch key (none when unset, since get yields null then).  The evaluation
order follows the source: command resolution (line 164), context resolution
with JS or-falsiness (165), the unguarded read of options.ignore (166-173),
path defaulting (175), the missing-command check (176-178), path
absolutisation (180-182), then watcher registration and the first run. -/
def watch (cwd : String) (cfgWatch : Option String) (options : Option WatchOpts) :
    WatchOutcome :=
  let command : Option CmdVal :=
    match options.bind (fun o => o.command) with
    | some c => some c
    | none => cfgWatch.map CmdVal.one
  let context : String :=
    match options.bind (fun o => o.context) with
    | some s => if s == "" then cwd else s
    | none => cwd
  match options with
  | none => WatchOutcome.typeError
  | some o =>
    let ignore : List String :=
      match o.ignore with
      | none => [".git"]
      | some (IgnoreVal.one p) => if p == "" then [".git"] else [".git", p]
      | some (IgnoreVal.many ps) => ".git" :: ps
    let path0 : String :=
      match o.path with
      | some p => if p == "" then context else p
      | none => context
    match command with
    | none => WatchOutcome.configError
    | some c =>
      if c.truthy then
        WatchOutcome.started
          (if path0.startsWith "/" then path0 else cwd ++ "/" ++ path0)
          ignore c context
      else WatchOutcome.configError

/-- Claim C9 (confirmed): calling watch with the options argument entirely
absent fails with the TypeError raised by reading the ignore field of
undefined, for every working directory and every configured default, and in
particular never reaches the Watch no command found configuration error. -/
theorem watch_no_options_type_error (cwd : String) (cfgWatch : Option String) :
    watch cwd cfgWatch none = WatchOutcome.typeError ∧
      WatchOutcome.typeError ≠ WatchOutcome.configError := by
  constructor
  · rfl
  · intro h; exact WatchOutcome.noConfusion h

/-- Claim C8 counterexample: invoked with no options argument at all — hence
with no command given and no configured default — watch fails with the
TypeError from the unguarded options.ignore read, not with the configuration
error the claim promises. -/
theorem watch_no_command_cex :
    watch "/work" none none = WatchOutcome.typeError ∧
      watch "/work" none none ≠ WatchOutcome.configError := by
  decide

/-- Claim C8 amended (proved): whenever watch is invoked with an options object
present but carrying no command, and no default is configured, it fails with
the Watch no command found configuration error; in particular the outcome is
never `started`, so the filesystem watcher is not registered and no process is
spawned. -/
theorem watch_missing_command_config_error (cwd : String) (o : WatchOpts)
    (hcmd : o.command = none) :
    watch cwd none (some o) = WatchOutcome.configError ∧
      ∀ p igs c ctx, watch cwd none (some o) ≠ WatchOutcome.started p igs c ctx := by
  have h : watch cwd none (some o) = WatchOutcome.configError := by
    simp [watch, hcmd]
  exact ⟨h, fun p igs c ctx hs => by rw [h] at hs; exact WatchOutcome.noConfusion hs⟩

theorem watch_missing_command_config_error_witness :
    watch "/work" none (some ⟨none, none, none, none⟩) = WatchOutcome.configError ∧
      ∀ p igs c ctx,
        watch "/work" none (some ⟨none, none, none, none⟩) ≠
          WatchOutcome.started p igs c ctx :=
  watch_missing_command_config_error "/work" ⟨none, none, none, none⟩ rfl

/-! The debounced watch handler (devtools.ts lines 213-243). -/

/-- The debounce wait passed to the external debounce combinator at devtools.ts
line 228, in milliseconds. -/
def watchDebounceMs : Nat := 1000

/-- Trailing-edge debounce, the contract of the external debounce combinator
wrapped around the watch handler (devtools.ts lines 216-228): given the arrival
time `t` of the pending call and the sorted arrival times of the later calls,
a call arriving within `w` of the pending one resets the timer, otherwise the
wrapped handler fires at `t + w`.  Returns the times at which the wrapped
handler is invoked. -/
def debounceFires (w : Nat) : Nat → List Nat → List Nat
  | t, [] => [t + w]
  | t, t' :: ts =>
    if t' - t < w then debounceFires w t' ts
    else (t + w) :: debounceFires w t' ts

/-- The invocation times of the debounced watch handler for a sorted list of
filesystem change event times. -/
def debouncedRuns (w : Nat) : List Nat → List Nat
  | [] => []
  | t :: ts => debounceFires w t ts

theorem debounceFires_burst (w : Nat) (ts : List Nat) :
    ∀ t : Nat, List.Chain (fun a b => a ≤ b ∧ b - a < w) t ts →
      ∃ last : Nat, debounceFires w t ts = [last + w] := by
  induction ts with
  | nil => exact fun t _ => ⟨t, rfl⟩
  | cons t' ts ih =>
    intro t h
    rcases h with _ | ⟨⟨_, hlt⟩, hchain⟩
    obtain ⟨last, hlast⟩ := ih t' hchain
    exact ⟨last, by simp [debounceFires, hlt, hlast]⟩

/-- Claim C7 (confirmed): a burst of filesystem change events whose consecutive
arrivals all fall inside the 1000 ms debounce window triggers exactly one
invocation of the debounced handler — hence at most one new job execution —
after the burst settles, not one per change event. -/
theorem watch_burst_single_run (t : Nat) (ts : List Nat)
    (h : List.Chain (fun a b => a ≤ b ∧ b - a < watchDebounceMs) t ts) :
    (debouncedRuns watchDebounceMs (t :: ts)).length = 1 := by
  obtain ⟨last, hlast⟩ := debounceFires_burst watchDebounceMs ts t h
  simp [debouncedRuns, hlast]

theorem watch_burst_single_run_witness :
    (debouncedRuns watchDebounceMs (0 :: [100, 900, 1500])).length = 1 :=
  watch_burst_single_run 0 [100, 900, 1500]
    (List.Chain.cons ⟨by decide, by decide⟩
      (List.Chain.cons ⟨by decide, by decide⟩
        (List.Chain.cons ⟨by decide, by decide⟩ List.Chain.nil)))

/-! The run/kill cycle of the debounced watch handler (devtools.ts lines
184-243).  Each handler invocation first awaits the kill of every tracked
child-process handle from the previous run, then spawns the processes of the
new run via runInBackground and tracks their handles.  runInBackground and the
process-handle kill live outside src; per the collaborator contract of the
spec, kill is awaitable and its completion is the termination of the process.
The debounce discipline executes at most one handler invocation at a time, so
the cycle is modelled as a sequence of invocations producing an event trace. -/

/-- A process identity: the index of the run that spawned it, paired with the
index of its command inside the run. -/
abbrev Pid := Nat × Nat

/-- Process-lifecycle events of the watch runner: `kill p` is the awaited
completion of the kill of handle `p` (devtools.ts lines 217-225), `spawn p` is
the spawning of process `p` by the run function (lines 184-208, 227). -/
inductive WEvent where
  | kill (p : Pid)
  | spawn (p : Pid)
deriving DecidableEq

/-- The process handles of run `k` for a job of `m` parallel commands. -/
def pidsOf (m k : Nat) : List Pid := (List.range m).map fun j => (k, j)

/-- One invocation of the debounced handler for run index `k` (devtools.ts
lines 216-228): if handles are tracked in the closed-over child variable, each
is killed and the kill awaited, in order; then the new run spawns its `m`
processes, which become the tracked handles. -/
def handlerEvents (m : Nat) (prev : Option (List Pid)) (k : Nat) : List WEvent :=
  (prev.getD []).map WEvent.kill ++ (pidsOf m k).map WEvent.spawn

/-- Event trace and tracked handles after `n` sequential invocations of the
debounced handler. -/
def watchRunnerAux (m : Nat) : Nat → List WEvent × Option (List Pid)
  | 0 => ([], none)
  | n + 1 =>
    ((watchRunnerAux m n).1 ++ handlerEvents m (watchRunnerAux m n).2 n,
      some (pidsOf m n))

/-- The full event trace of `n` watch-runner cycles for an `m`-command job. -/
def watchTrace (m n : Nat) : List WEvent := (watchRunnerAux m n).1

/-- A process is un-terminated at a point in time — a prefix `t` of the trace —
when it has been spawned and its kill has not completed. -/
def aliveIn (t : List WEvent) (p : Pid) : Prop :=
  WEvent.spawn p ∈ t ∧ WEvent.kill p ∉ t

instance (t : List WEvent) (p : Pid) : Decidable (aliveIn t p) :=
  inferInstanceAs (Decidable (WEvent.spawn p ∈ t ∧ WEvent.kill p ∉ t))

theorem mem_pidsOf {m k : Nat} {p : Pid} : p ∈ pidsOf m k ↔ p.1 = k ∧ p.2 < m := by
  simp only [pidsOf, List.mem_map, List.mem_range]
  constructor
  · rintro ⟨j, hj, rfl⟩
    exact ⟨rfl, hj⟩
  · intro h
    exact ⟨p.2, h.2, by rw [← h.1]⟩

theorem watchRunnerAux_state (m : Nat) :
    ∀ n, (watchRunnerAux m n).2 = if n = 0 then none else some (pidsOf m (n - 1))
  | 0 => rfl
  | n + 1 => by simp [watchRunnerAux]

theorem watchTrace_succ (m n : Nat) :
    watchTrace m (n + 1) =
      watchTrace m n ++ handlerEvents m (watchRunnerAux m n).2 n := rfl

theorem spawn_mem_watchTrace {m n : Nat} {p : Pid} :
    WEvent.spawn p ∈ watchTrace m n ↔ p.1 < n ∧ p.2 < m := by
  induction n with
  | zero => simp [watchTrace, watchRunnerAux]
  | succ n ih =>
    rw [watchTrace_succ]
    simp only [List.mem_append, ih, handlerEvents, List.mem_map]
    simp [mem_pidsOf]
    omega

theorem kill_mem_watchTrace {m n : Nat} {p : Pid} :
    WEvent.kill p ∈ watchTrace m n ↔ p.1 + 1 < n ∧ p.2 < m := by
  induction n with
  | zero => simp [watchTrace, watchRunnerAux]
  | succ n ih =>
    rw [watchTrace_succ]
    simp only [List.mem_append, ih, handlerEvents, List.mem_map]
    rw [watchRunnerAux_state]
    by_cases hn : n = 0
    · subst hn
      simp [mem_pidsOf]
    · simp [hn, mem_pidsOf]
      omega

theorem prefix_append_split {α : Type _} {l l₁ l₂ : List α} (h : l <+: l₁ ++ l₂) :
    l <+: l₁ ∨ ∃ r, l = l₁ ++ r ∧ r <+: l₂ := by
  induction l₁ generalizing l with
  | nil => exact Or.inr ⟨l, rfl, h⟩
  | cons a as ih =>
    cases l with
    | nil => exact Or.inl List.nil_prefix
    | cons b bs =>
      rw [List.cons_append, List.cons_prefix_cons] at h
      obtain ⟨rfl, h2⟩ := h
      rcases ih h2 with h3 | ⟨r, rfl, h4⟩
      · exact Or.inl (List.cons_prefix_cons.mpr ⟨rfl, h3⟩)
      · exact Or.inr ⟨r, rfl, h4⟩

/-- Claim C3 (confirmed): at every point in time of a watch-runner session —
every prefix `t` of the trace of `n` sequential debounced-handler invocations
for an `m`-command job — all un-terminated processes belong to one single run:
a later run spawns nothing until every handle of the earlier run has had its
kill awaited to completion, so no two runs have simultaneously un-terminated
processes. -/
theorem watch_runs_never_overlap (m : Nat) : ∀ (n : Nat) (t : List WEvent),
    t <+: watchTrace m n → ∀ p q : Pid, aliveIn t p → aliveIn t q → p.1 = q.1 := by
  intro n
  induction n with
  | zero =>
    intro t ht p q hp _
    have ht0 : t = [] := List.prefix_nil.mp ht
    subst ht0
    exact absurd hp.1 (List.not_mem_nil _)
  | succ n ih =>
    intro t ht p q hp hq
    rw [watchTrace_succ] at ht
    rcases prefix_append_split ht with h | ⟨r, rfl, hr⟩
    · exact ih t h p q hp hq
    · rw [handlerEvents] at hr
      rcases prefix_append_split hr with hk | ⟨r', rfl, hs⟩
      · -- the point in time lies inside the kill phase of invocation n:
        -- every un-terminated process was spawned by run n - 1
        have key : ∀ x : Pid, aliveIn (watchTrace m n ++ r) x → x.1 = n - 1 := by
          intro x hx
          have hsp : WEvent.spawn x ∈ watchTrace m n := by
            rcases List.mem_append.mp hx.1 with h1 | h1
            · exact h1
            · exfalso
              rcases List.mem_map.mp (hk.subset h1) with ⟨y, _, hy⟩
              cases hy
          have h1 := spawn_mem_watchTrace.mp hsp
          have h2 : ¬(x.1 + 1 < n ∧ x.2 < m) := fun hc =>
            hx.2 (List.mem_append.mpr (Or.inl (kill_mem_watchTrace.mpr hc)))
          omega
        rw [key p hp, key q hq]
      · -- the point in time lies inside the spawn phase of invocation n:
        -- every handle of run n - 1 is already killed, so every
        -- un-terminated process was spawned by run n
        have key : ∀ x : Pid,
            aliveIn (watchTrace m n ++
              (((watchRunnerAux m n).2.getD []).map WEvent.kill ++ r')) x →
            x.1 = n := by
          intro x hx
          rcases List.mem_append.mp hx.1 with h1 | h1
          · exfalso
            obtain ⟨hx1, hx2⟩ := spawn_mem_watchTrace.mp h1
            by_cases hlt : x.1 + 1 < n
            · exact hx.2 (List.mem_append.mpr (Or.inl
                (kill_mem_watchTrace.mpr ⟨hlt, hx2⟩)))
            · have hn0 : n ≠ 0 := by omega
              have hx1' : x.1 = n - 1 := by omega
              apply hx.2
              refine List.mem_append.mpr (Or.inr (List.mem_append.mpr (Or.inl ?_)))
              rw [watchRunnerAux_state, if_neg hn0]
              simp only [Option.getD_some]
              exact List.mem_map.mpr ⟨x, mem_pidsOf.mpr ⟨hx1', hx2⟩, rfl⟩
          · rcases List.mem_append.mp h1 with h2 | h2
            · exfalso
              rcases List.mem_map.mp h2 with ⟨y, _, hy⟩
              cases hy
            · rcases List.mem_map.mp (hs.subset h2) with ⟨y, hy, hye⟩
              cases hye
              exact (mem_pidsOf.mp hy).1
        rw [key p hp, key q hq]

theorem watch_runs_never_overlap_witness :
    watchTrace 2 2 <+: watchTrace 2 2 ∧ aliveIn (watchTrace 2 2) (1, 0) ∧
      aliveIn (watchTrace 2 2) (1, 1) ∧ ((1, 0) : Pid).1 = ((1, 1) : Pid).1 :=
  ⟨List.prefix_rfl, by decide, by decide,
    watch_runs_never_overlap 2 2 (watchTrace 2 2) List.prefix_rfl (1, 0) (1, 1)
      (by decide) (by decide)⟩

/-! sortPackageJSON (package.ts lines 138-265). -/

/-- A JSON-like value, for the entries of a package.json object. -/
inductive JsonVal where
  | nul
  | bool (b : Bool)
  | num (n : Int)
  | str (s : String)
  | arr (elems : List JsonVal)
  | obj (entries : List (String × JsonVal))

/-- JS truthiness of a value, the test at package.ts line 251: null, false,
zero and the empty string are falsy; arrays and objects are truthy. -/
def jsTruthy : JsonVal → Bool
  | .nul => false
  | .bool b => b
  | .num n => n != 0
  | .str s => s != ""
  | .arr _ => true
  | .obj _ => true

/-- The fixed field order of sortPackageJSON (package.ts lines 139-247), with
every key transcribed in source order. -/
def packageFields : List String :=
  ["$schema", "name", "displayName", "version", "private", "description",
    "categories", "keywords", "homepage", "bugs", "repository", "funding",
    "license", "qna", "author", "maintainers", "contributors", "publisher",
    "sideEffects", "type", "imports", "exports", "main", "umd:main",
    "jsdelivr", "unpkg", "module", "source", "jsnext:main", "browser",
    "types", "typesVersions", "typings", "style", "example", "examplestyle",
    "assets", "bin", "man", "directories", "files", "workspaces", "binary",
    "scripts", "betterScripts", "contributes", "activationEvents", "husky",
    "simple-git-hooks", "pre-commit", "commitlint", "lint-staged", "config",
    "nodemonConfig", "browserify", "babel", "browserslist", "xo", "prettier",
    "eslintConfig", "eslintIgnore", "npmpkgjsonlint",
    "npmPackageJsonLintConfig", "npmpackagejsonlint", "release",
    "remarkConfig", "stylelint", "ava", "jest", "mocha", "nyc", "c8", "tap",
    "resolutions", "dependencies", "devDependencies", "dependenciesMeta",
    "peerDependencies", "peerDependenciesMeta", "optionalDependencies",
    "bundledDependencies", "bundleDependencies", "extensionPack",
    "extensionDependencies", "flat", "engines", "engineStrict",
    "languageName", "os", "cpu", "preferGlobal", "publishConfig", "icon",
    "badges", "galleryBanner", "preview", "markdown"]

/-- sortPackageJSON (package.ts lines 138-265) on a package object modelled as
an association list in insertion order.  The first loop (lines 250-255) moves
each recognized field whose value is truthy into the result, in the fixed
field order, deleting it from the input; the rest loop (lines 258-262) then
copies every remaining entry in insertion order.  Because the field list has
no duplicate keys, the progressive deletion is equivalent to filtering the
moved entries out of the input. -/
def sortPackageJSON (pkg : List (String × JsonVal)) : List (String × JsonVal) :=
  (packageFields.filterMap fun k =>
    match pkg.find? (fun kv => kv.1 == k) with
    | some kv => if jsTruthy kv.2 then some kv else none
    | none => none) ++
  pkg.filter fun kv => !(packageFields.contains kv.1 && jsTruthy kv.2)

/-- Modelled from the claim, as the refinement target: the ordering the claim
asserts, with every recognized field present in the input placed first in the
fixed field order, followed by all remaining keys in input order. -/
def claimSortPackageJSON (pkg : List (String × JsonVal)) :
    List (String × JsonVal) :=
  (packageFields.filterMap fun k => pkg.find? fun kv => kv.1 == k) ++
    pkg.filter fun kv => !(packageFields.contains kv.1)

/-- Whether the input object has key `k` with a truthy value — the test
applied by the first loop (package.ts line 251). -/
def truthyIn (pkg : List (String × JsonVal)) (k : String) : Bool :=
  match pkg.find? (fun kv => kv.1 == k) with
  | some kv => jsTruthy kv.2
  | none => false

/-- Input for the claim C10 counterexample: a package object with a
falsy-valued recognized field between two truthy recognized fields. -/
def pkgCexC10 : List (String × JsonVal) :=
  [("version", JsonVal.str "1.0.0"), ("private", JsonVal.bool false),
    ("description", JsonVal.str "d")]

/-- Claim C10 counterexample: with the recognized field private holding the
falsy value false, the code moves it into the trailing rest section — after
the recognized field description — whereas the claimed ordering places every
recognized field first in the fixed order; the key sequences differ, so
sortPackageJSON does not place recognized fields first as the claim states. -/
theorem sortPackageJSON_claim_order_cex :
    (sortPackageJSON pkgCexC10).map Prod.fst =
        ["version", "description", "private"] ∧
      (claimSortPackageJSON pkgCexC10).map Prod.fst =
        ["version", "private", "description"] ∧
      (sortPackageJSON pkgCexC10).map Prod.fst ≠
        (claimSortPackageJSON pkgCexC10).map Prod.fst := by
  decide

theorem packageFields_nodup : packageFields.Nodup := by decide

/-- Helper: two entries of an object with nodup keys that share a key are the
same entry. -/
theorem entry_unique {pkg : List (String × JsonVal)}
    (h : (pkg.map Prod.fst).Nodup) {kv kv' : String × JsonVal}
    (h1 : kv ∈ pkg) (h2 : kv' ∈ pkg) (hk : kv.1 = kv'.1) : kv = kv' :=
  List.inj_on_of_nodup_map h h1 h2 hk

/-- Helper: the first loop of sortPackageJSON produces, up to order, exactly
the entries of the input whose key is recognized and whose value is truthy. -/
theorem sort_first_loop_perm (fs : List String) :
    ∀ pkg : List (String × JsonVal), fs.Nodup → (pkg.map Prod.fst).Nodup →
    List.Perm
      (fs.filterMap fun k =>
        match pkg.find? (fun kv => kv.1 == k) with
        | some kv => if jsTruthy kv.2 then some kv else none
        | none => none)
      (pkg.filter fun kv => fs.contains kv.1 && jsTruthy kv.2) := by
  induction fs with
  | nil =>
    intro pkg _ _
    simp
  | cons f fs ih =>
    intro pkg hfs hpkg
    have hf : f ∉ fs := (List.nodup_cons.mp hfs).1
    have hfs' : fs.Nodup := (List.nodup_cons.mp hfs).2
    cases hfind : pkg.find? (fun kv => kv.1 == f) with
    | none =>
      have hno : ∀ kv ∈ pkg, ¬(kv.1 == f) = true := List.find?_eq_none.mp hfind
      have hcongr : pkg.filter (fun kv => (f :: fs).contains kv.1 && jsTruthy kv.2) =
          pkg.filter (fun kv => fs.contains kv.1 && jsTruthy kv.2) := by
        apply List.filter_congr
        intro kv hkv
        have hne : kv.1 ≠ f := fun he => hno kv hkv (by simp [he])
        simp [List.contains_cons, hne]
      have hstep : ((f :: fs).filterMap fun k =>
          match pkg.find? (fun kv => kv.1 == k) with
          | some kv => if jsTruthy kv.2 then some kv else none
          | none => none) = fs.filterMap fun k =>
          match pkg.find? (fun kv => kv.1 == k) with
          | some kv => if jsTruthy kv.2 then some kv else none
          | none => none := by
        rw [List.filterMap_cons, hfind]
      rw [hstep, hcongr]
      exact ih pkg hfs' hpkg
    | some kv =>
      have hkey : kv.1 = f := by
        have := List.find?_some hfind
        exact eq_of_beq this
      have hmem : kv ∈ pkg := List.mem_of_find?_eq_some hfind
      cases htr : jsTruthy kv.2 with
      | false =>
        have hcongr : pkg.filter (fun kv' => (f :: fs).contains kv'.1 && jsTruthy kv'.2) =
            pkg.filter (fun kv' => fs.contains kv'.1 && jsTruthy kv'.2) := by
          apply List.filter_congr
          intro kv' hkv'
          by_cases hb : kv'.1 = f
          · have hkk : kv' = kv := entry_unique hpkg hkv' hmem (by rw [hb, hkey])
            rw [hkk, htr]
            simp
          · simp [List.contains_cons, hb]
        have hstep : ((f :: fs).filterMap fun k =>
            match pkg.find? (fun kv' => kv'.1 == k) with
            | some kv' => if jsTruthy kv'.2 then some kv' else none
            | none => none) = fs.filterMap fun k =>
            match pkg.find? (fun kv' => kv'.1 == k) with
            | some kv' => if jsTruthy kv'.2 then some kv' else none
            | none => none := by
          rw [List.filterMap_cons, hfind]
          simp [htr]
        rw [hstep, hcongr]
        exact ih pkg hfs' hpkg
      | true =>
        obtain ⟨l₁, l₂, rfl⟩ := List.append_of_mem hmem
        have hkeys : ∀ kv' ∈ l₁ ++ l₂, kv'.1 ≠ f := by
          intro kv' hkv' he
          have hne : kv' ≠ kv := by
            intro hkk
            subst hkk
            rw [List.map_append, List.map_cons] at hpkg
            rcases List.mem_append.mp hkv' with h1 | h1
            · have := (List.nodup_append.mp hpkg).2.2
              exact this (List.mem_map_of_mem Prod.fst h1)
                (List.mem_cons_self _ _)
            · have := (List.nodup_append.mp hpkg).2.1
              exact (List.nodup_cons.mp this).1 (List.mem_map_of_mem Prod.fst h1)
          exact hne (entry_unique hpkg
            (by rcases List.mem_append.mp hkv' with h1 | h1
                · exact List.mem_append.mpr (Or.inl h1)
                · exact List.mem_append.mpr (Or.inr (List.mem_cons_of_mem kv h1)))
            hmem (by rw [he, hkey]))
        have hsplit : ∀ l : List (String × JsonVal), (∀ kv' ∈ l, kv'.1 ≠ f) →
            l.filter (fun kv' => (f :: fs).contains kv'.1 && jsTruthy kv'.2) =
              l.filter (fun kv' => fs.contains kv'.1 && jsTruthy kv'.2) := by
          intro l hl
          apply List.filter_congr
          intro kv' hkv'
          simp [List.contains_cons, hl kv' hkv']
        have hkv_in : ((f :: fs).contains kv.1 && jsTruthy kv.2) = true := by
          simp [htr, hkey]
        have hkv_out : (fs.contains kv.1 && jsTruthy kv.2) = false := by
          have hnotin : kv.1 ∉ fs := by rw [hkey]; exact hf
          simp [hnotin]
        have hstep : ((f :: fs).filterMap fun k =>
            match (l₁ ++ kv :: l₂).find? (fun kv' => kv'.1 == k) with
            | some kv' => if jsTruthy kv'.2 then some kv' else none
            | none => none) = kv :: (fs.filterMap fun k =>
            match (l₁ ++ kv :: l₂).find? (fun kv' => kv'.1 == k) with
            | some kv' => if jsTruthy kv'.2 then some kv' else none
            | none => none) := by
          rw [List.filterMap_cons, hfind]
          simp [htr]
        have hfilter_big : (l₁ ++ kv :: l₂).filter
            (fun kv' => (f :: fs).contains kv'.1 && jsTruthy kv'.2) =
            (l₁.filter fun kv' => fs.contains kv'.1 && jsTruthy kv'.2) ++
              kv :: (l₂.filter fun kv' => fs.contains kv'.1 && jsTruthy kv'.2) := by
          rw [List.filter_append, List.filter_cons, if_pos hkv_in,
            hsplit l₁ (fun kv' h => hkeys kv' (List.mem_append.mpr (Or.inl h))),
            hsplit l₂ (fun kv' h => hkeys kv' (List.mem_append.mpr (Or.inr h)))]
        have hfilter_small : (l₁ ++ kv :: l₂).filter
            (fun kv' => fs.contains kv'.1 && jsTruthy kv'.2) =
            (l₁.filter fun kv' => fs.contains kv'.1 && jsTruthy kv'.2) ++
              (l₂.filter fun kv' => fs.contains kv'.1 && jsTruthy kv'.2) := by
          rw [List.filter_append, List.filter_cons,
            if_neg (by simp only [hkv_out]; simp)]
        rw [hstep, hfilter_big]
        refine List.Perm.trans (List.Perm.cons kv ?_) List.perm_middle.symm
        rw [← hfilter_small]
        exact ih (l₁ ++ kv :: l₂) hfs' hpkg

/-- Helper: the keys produced by the first loop are the recognized keys whose
input value is truthy, in field order. -/
theorem sort_first_loop_keys (fs : List String)
    (pkg : List (String × JsonVal)) :
    (fs.filterMap fun k =>
      match pkg.find? (fun kv => kv.1 == k) with
      | some kv => if jsTruthy kv.2 then some kv else none
      | none => none).map Prod.fst = fs.filter fun k => truthyIn pkg k := by
  induction fs with
  | nil => rfl
  | cons f fs ih =>
    rw [List.filterMap_cons, List.filter_cons]
    cases hfind : pkg.find? (fun kv => kv.1 == f) with
    | none =>
      simp only [truthyIn, hfind]
      rw [if_neg (by simp)]
      exact ih
    | some kv =>
      have hkey : kv.1 = f := by
        have hb := List.find?_some hfind
        exact eq_of_beq hb
      cases htr : jsTruthy kv.2 with
      | false =>
        simp only [truthyIn, hfind, htr]
        rw [if_neg (by simp)]
        simpa using ih
      | true =>
        simp only [truthyIn, hfind, htr, if_true, List.map_cons, hkey]
        rw [ih]
        rfl

/-- Claim C10 amended (proved): for every input object with unique keys,
sortPackageJSON returns exactly the same key-value pairs as the input — a
permutation, with no key dropped and no value changed — placing the recognized
fields whose values are truthy first, in the fixed field order, followed by
all remaining entries, including falsy-valued recognized fields, in their
original relative order. -/
theorem sortPackageJSON_preserves_pairs (pkg : List (String × JsonVal))
    (h : (pkg.map Prod.fst).Nodup) :
    List.Perm (sortPackageJSON pkg) pkg ∧
      (sortPackageJSON pkg).map Prod.fst =
        (packageFields.filter fun k => truthyIn pkg k) ++
          (pkg.filter fun kv =>
            !(packageFields.contains kv.1 && jsTruthy kv.2)).map Prod.fst := by
  constructor
  · have h1 := sort_first_loop_perm packageFields pkg packageFields_nodup h
    have h2 := List.filter_append_perm
      (fun kv => packageFields.contains kv.1 && jsTruthy kv.2) pkg
    exact List.Perm.trans (List.Perm.append_right _ h1) h2
  · rw [sortPackageJSON, List.map_append, sort_first_loop_keys]

theorem sortPackageJSON_preserves_pairs_witness :
    List.Perm (sortPackageJSON pkgCexC10) pkgCexC10 ∧
      (sortPackageJSON pkgCexC10).map Prod.fst =
        (packageFields.filter fun k => truthyIn pkgCexC10 k) ++
          (pkgCexC10.filter fun kv =>
            !(packageFields.contains kv.1 && jsTruthy kv.2)).map Prod.fst :=
  sortPackageJSON_preserves_pairs pkgCexC10 (by decide)

end GPM
